import Mathlib

/-!
Verification development for the BRIMR downloader.

The source program is a Python script.  Filenames and other strings are
modelled as lists of characters (`List Char`); the relevant Python string
operations are translated to executable list operations.  Stateful parts
(the download-completion poll loop, the year-availability probe and the
download orchestrator) are modelled by explicit environments describing
what the outside world (filesystem, network, cancellation flag) returns
at each interaction point.
-/

/-- The whitespace characters removed by the default form of Python
"str.strip": exactly the code points on which "str.isspace" holds,
namely 0x09-0x0D, 0x1C-0x20, NEL 0x85, NBSP 0xA0, Ogham space 0x1680,
the spaces 0x2000-0x200A, the line and paragraph separators 0x2028 and
0x2029, and 0x202F, 0x205F, 0x3000. -/
def isPySpace (c : Char) : Bool :=
  (0x09 ≤ c.toNat && c.toNat ≤ 0x0d) ||
  (0x1c ≤ c.toNat && c.toNat ≤ 0x20) ||
  c.toNat == 0x85 || c.toNat == 0xa0 || c.toNat == 0x1680 ||
  (0x2000 ≤ c.toNat && c.toNat ≤ 0x200a) ||
  c.toNat == 0x2028 || c.toNat == 0x2029 ||
  c.toNat == 0x202f || c.toNat == 0x205f || c.toNat == 0x3000

/-- Characters the source treats as invalid in filenames; the Python
literal is the nine characters less-than, greater-than, colon, quote,
slash, backslash, pipe, question mark, star. -/
def invalidChars : List Char := "<>:\"/\\|?*".data

/-- Everything before the first question mark; models the source's
"filename.split" on a question mark keeping the first piece (a no-op
when the character is absent). -/
def dropAfterQ (l : List Char) : List Char := l.takeWhile (fun c => !(c == '?'))

/-- Replace every invalid character by an underscore.  The source performs
nine sequential single-character replacements; since the replacement
character is itself never invalid this equals one simultaneous map. -/
def replaceInvalid (l : List Char) : List Char :=
  l.map (fun c => if invalidChars.contains c then '_' else c)

/-- Remove from both ends every character satisfying the predicate;
models Python "str.strip" with a character set. -/
def stripEnds (p : Char → Bool) (l : List Char) : List Char :=
  ((l.dropWhile p).reverse.dropWhile p).reverse

/-- Translation of the source's sanitize_filename: drop the query string,
replace invalid characters, strip surrounding whitespace, then strip
dots from the ends (Python "strip" removes from both ends). -/
def sanitize_filename (l : List Char) : List Char :=
  stripEnds (fun c => c == '.') (stripEnds isPySpace (replaceInvalid (dropAfterQ l)))

/-- Remove every hyphen and underscore; models the two sequential
"replace" calls producing the normalized key in categorize_file. -/
def removeSeps (l : List Char) : List Char :=
  l.filter (fun c => !(c == '-' || c == '_'))

/-- Decide whether the first list occurs contiguously inside the second,
starting at the current position; helper for `containsSub`. -/
def isPrefixOfCh : List Char → List Char → Bool
  | [], _ => true
  | _ :: _, [] => false
  | a :: as, b :: bs => a == b && isPrefixOfCh as bs

/-- Decide whether the first list occurs contiguously inside the second;
models the Python "in" operator on strings. -/
def containsSub (needle : List Char) : List Char → Bool
  | [] => needle.isEmpty
  | b :: bs => isPrefixOfCh needle (b :: bs) || containsSub needle bs

/-- The FILE_CATEGORIES configuration table of the source, verbatim. -/
def FILE_CATEGORIES : List (String × List String) :=
  [("01_Source_Data",
    ["worldwide", "worldwidebrimr", "brimrworldwide",
     "allorgs", "medicalschoolsonly", "medicalschools",
     "contracts", "somcontracts", "worldwidecontractsonly"]),
   ("02_School_Rankings",
    ["schoolofmedicine",
     "schoolofdentistry", "dentistry",
     "schoolofnursing", "nursing",
     "schoolofpublichealth",
     "schoolofpharmacy", "pharmacy",
     "schoolofveterinarymedicine", "schoolofverterinarymedicine",
     "schoolsofveterinarymedicine", "veterinarymedicine",
     "schoolofosteopathicmedicine",
     "schoolofalliedhealth",
     "hospitals",
     "otherhealthprofessions"]),
   ("03_Department_Summaries",
    ["bydepartment", "bydepartmentr",
     "awardsbydepartment",
     "medicalschoolsandtheirdepartments",
     "medicalschoolsanddept", "medicalschoolanddept",
     "mastertemplatenihawards", "mastertemplatenihawardsr"]),
   ("04_Basic_Science",
    ["anatomycellbiol", "anatomycellbiology", "anatomycellbiologyr",
     "biochemistry", "biochemistryr",
     "biomedicalengineering",
     "genetics", "geneticsr",
     "microbiology", "microbiologyr",
     "neurosciences", "neurosciencesr",
     "pharmacology", "pharmacologyr",
     "physiology", "physiologyr",
     "otherbasicsciences"]),
   ("05_Clinical_Depts",
    ["anesthesiology", "anesthesiologyr",
     "dermatology", "dermatologyr",
     "emergencymedicine", "emergencymediciner",
     "familymedicine", "familymediciner",
     "medicine", "mediciner",
     "neurology", "neurologyr", "neurologyxls",
     "neurosurgery", "neurosurgeryr",
     "nutrition",
     "obgyn", "obgynr",
     "obstetrics", "obstetricsandgynecology", "obstetricsgynecology",
     "ophthalmology", "ophthalmologyr",
     "orthopedics", "orthopedicsr",
     "ent", "otolaryngology", "otolaryngologyr",
     "pathology", "pathologyr",
     "pediatrics", "pediatricsr",
     "physicalme", "physicalmed", "physicalmedicine", "physicalmediciner",
     "psychiatry", "psychiatryr",
     "publichealth", "publichealthr",
     "radiology", "radiologyr",
     "surgery", "surgeryr",
     "urology", "urologyr",
     "otherclinicalsciences"]),
   ("06_PI_Rankings",
    ["pi", "allpis", "pisbyrank", "principalinvestigator",
     "allorgdeptpi", "deptorgpi", "deptschoolpi", "deptschoolpir",
     "schooldeptpi",
     "contractspi",
     "anatomycellbiolpi", "anatomycellbiologypi",
     "biochemistrypi",
     "biomedicalengineeringpi",
     "geneticspi",
     "microbiologypi",
     "neurosciencespi",
     "pharmacologypi", "pharmacologypir",
     "physiologypi", "physiologypi2xls", "physiologypir",
     "anesthesiologypi",
     "dermatologypi",
     "emergencymedicinepi",
     "familymedicinepi",
     "medicinepi",
     "neurologypi",
     "neurosurgerypi", "neurosurgerypir",
     "obgynpi", "obgynpir",
     "obstetricspi", "obstetricsandgynecologypi", "obstetricsgynecologypi",
     "ophthalmologypi", "ophthalmologypir",
     "orthopedicspi", "orthopedicspir",
     "otolaryngologypi", "otolaryngologypir",
     "pathologypi", "pathologypir",
     "pediatricspi", "pediatricspir",
     "physicalmedicinepi", "physicalmedicinepir",
     "psychiatrypi", "psychiatrypir",
     "publichealthpi", "publichealthpir",
     "radiologypi", "radiologypir",
     "surgerypi", "surgerypir", "surgerypibcorrecte",
     "urologypi", "urologypir"]),
   ("07_Geographic",
    ["state", "statesandcountries",
     "city", "allcities", "citiesbyrankr",
     "institution", "allinstitutions", "allinstitutionsr",
     "organization",
     "fundingrankbystate",
     "percapitafundingbystate", "percapitafundingrankbystate"]),
   ("08_Other",
    ["topten", "toptenr",
     "covidawards", "covid",
     "merit", "nihmerit"])]

/-- The separator-sensitive PI markers tested against the lowercased raw
filename in categorize_file. -/
def PI_RAW_TAGS : List (List Char) :=
  ["_pi_".data, "_pi.".data, "pi_2".data, "contractspi".data]

/-- The compound PI markers tested against the normalized filename in
categorize_file. -/
def PI_NORM_TAGS : List (List Char) :=
  ["allorgdeptpi".data, "deptschoolpi".data, "schooldeptpi".data]

/-- The guard of the early return in categorize_file: the normalized key
contains "pi" and one of the raw or normalized markers occurs. -/
def isPITagged (filename : List Char) : Bool :=
  let raw := filename.map Char.toLower
  let norm := removeSeps raw
  containsSub "pi".data norm &&
    (PI_RAW_TAGS.any (fun tag => containsSub tag raw) ||
     PI_NORM_TAGS.any (fun tag => containsSub tag norm))

/-- All (normalized pattern, category) pairs from the table except the
PI-ranking category, in table order; models the all_patterns list built
by categorize_file before sorting. -/
def allPatterns : List (List Char × String) :=
  (FILE_CATEGORIES.filter (fun cat => !(cat.1 == "06_PI_Rankings"))).flatMap
    (fun cat => cat.2.map (fun pat => (removeSeps pat.data, cat.1)))

/-- Insert a pair into a length-descending list, after every element of
greater or equal length; helper for the stable sort below. -/
def insertByLen (p : List Char × String) :
    List (List Char × String) → List (List Char × String)
  | [] => [p]
  | q :: qs =>
    if p.1.length < q.1.length then q :: insertByLen p qs else p :: q :: qs

/-- Stable sort by pattern length descending; models the Python stable
"list.sort" with a length key and reverse order: elements of equal
length keep their original relative order. -/
def sortByLenDesc : List (List Char × String) → List (List Char × String)
  | [] => []
  | p :: ps => insertByLen p (sortByLenDesc ps)

/-- The sorted pattern list categorize_file scans on its general pass. -/
def sortedPatterns : List (List Char × String) := sortByLenDesc allPatterns

/-- Translation of the source's categorize_file: lowercase, normalize,
take the PI early return when `isPITagged` holds, otherwise return the
category of the first pattern (in length-descending order) contained in
the normalized key, defaulting to the uncategorized label. -/
def categorize_file (filename : List Char) : String :=
  let norm := removeSeps (filename.map Char.toLower)
  if isPITagged filename then
    "06_PI_Rankings"
  else
    match sortedPatterns.find? (fun pc => containsSub pc.1 norm) with
    | some pc => pc.2
    | none => "09_Uncategorized"

/-- Abstraction of one filesystem entry seen while polling the staging
directory: its name, its extension as reported by Path.suffix, whether
it is a regular file, and its modification time. -/
structure DirFile where
  name : String
  suffix : String
  isFile : Bool
  mtime : Nat
deriving DecidableEq, Repr

/-- The lowercased extension of an entry; models "f.suffix.lower()". -/
def lowerSuffix (f : DirFile) : List Char := f.suffix.data.map Char.toLower

/-- The in-progress extensions recognised by the source. -/
def isTempSuffix (s : List Char) : Bool :=
  s == ".crdownload".data || s == ".tmp".data || s == ".part".data

/-- The finished-document extensions recognised by the source. -/
def isExcelSuffix (s : List Char) : Bool :=
  s == ".xls".data || s == ".xlsx".data

/-- The entries with an in-progress extension; the source does not
require these to be regular files. -/
def tempFiles (files : List DirFile) : List DirFile :=
  files.filter (fun f => isTempSuffix (lowerSuffix f))

/-- The regular files with a finished-document extension. -/
def excelFiles (files : List DirFile) : List DirFile :=
  files.filter (fun f => isExcelSuffix (lowerSuffix f) && f.isFile)

/-- Python "max" with a modification-time key: scan the list keeping the
current maximum, replacing it only on a strictly greater key, so the
first of several equal maxima is returned. -/
def latestBy : DirFile → List DirFile → DirFile
  | acc, [] => acc
  | acc, f :: fs => latestBy (if acc.mtime < f.mtime then f else acc) fs

/-- What one iteration of the wait_for_download_complete loop observes:
the cancellation event is set, the directory listing raises OSError, or
the listing succeeds with the given entries. -/
inductive Poll where
  | cancelled
  | err
  | ok (files : List DirFile)
deriving DecidableEq, Repr

/-- Translation of the source's wait_for_download_complete over the finite
sequence of poll observations that fit before the timeout: an exhausted
sequence is the elapsed timeout, a set cancellation event returns no
file, a listing error retries, and a listing with at least one finished
file and no in-progress file returns the most recently modified finished
file.  Every non-returning branch sleeps one fixed interval. -/
def wait_for_download_complete : List Poll → Option DirFile
  | [] => none
  | Poll.cancelled :: _ => none
  | Poll.err :: rest => wait_for_download_complete rest
  | Poll.ok files :: rest =>
    match excelFiles files, tempFiles files with
    | e :: es, [] => some (latestBy e es)
    | [], _ => wait_for_download_complete rest
    | _ :: _, _ :: _ => wait_for_download_complete rest

/-- A poll observation at which the loop succeeds: a listing with at
least one finished file and no in-progress file. -/
def pollGood : Poll → Bool
  | Poll.ok files => !(excelFiles files).isEmpty && (tempFiles files).isEmpty
  | _ => false

/-- A poll observation of the set cancellation event. -/
def pollCancel : Poll → Bool
  | Poll.cancelled => true
  | _ => false

/-- The years from `hi` down to `lo`, descending; models
"range(hi, lo - 1, -1)". -/
def downRange (hi lo : Nat) : List Nat :=
  (List.range' lo (hi + 1 - lo)).reverse

/-- Whether one year's probe observes a final 200: directly by the HEAD
check, or by the streaming GET retry after a 403 or 405 HEAD status.
A raised request exception (modelled by `Except.error`) in either
request makes the year unavailable without affecting any other year. -/
def yearAvailable (head get : Nat → Except Unit Nat) (y : Nat) : Bool :=
  match head y with
  | Except.error _ => false
  | Except.ok s =>
    if s == 200 then true
    else if s == 403 || s == 405 then
      match get y with
      | Except.error _ => false
      | Except.ok s2 => s2 == 200
    else false

/-- Translation of the source's detect_available_years: probe every year
from the current year down to 2006, keep the available ones (the loop
accumulates a set and returns it sorted descending, which over the
strictly descending probe range is the descending filtered range), and
fall back to the static range 2024 down to 2006 when none was found. -/
def detect_available_years (currentYear : Nat)
    (head get : Nat → Except Unit Nat) : List Nat :=
  let years := (downRange currentYear 2006).filter (yearAvailable head get)
  if years.isEmpty then downRange 2024 2006 else years

/-- Run counters of the download orchestrator. -/
structure Counters where
  downloaded : Nat
  skipped : Nat
  failed : Nat
  yearsSkipped : Nat
deriving DecidableEq, Repr

def addDownloaded (c : Counters) : Counters :=
  ⟨c.downloaded + 1, c.skipped, c.failed, c.yearsSkipped⟩

def addSkipped (c : Counters) : Counters :=
  ⟨c.downloaded, c.skipped + 1, c.failed, c.yearsSkipped⟩

def addFailed (c : Counters) : Counters :=
  ⟨c.downloaded, c.skipped, c.failed + 1, c.yearsSkipped⟩

def addYearSkipped (c : Counters) : Counters :=
  ⟨c.downloaded, c.skipped, c.failed, c.yearsSkipped + 1⟩

/-- Externally visible operations of the orchestrator, recorded in a
trace tagged with the index of the cancellation-flag read that most
recently preceded them. -/
inductive OrchAct where
  | clearTemp
  | navigate
  | wait
  | move
  | loadYearPage
  | quitDriver
  | removeTempDir
  | summary (c : Counters) (cancelled : Bool)
deriving DecidableEq, Repr

/-- Environment of one file iteration of the orchestrator: whether the
computed final path already exists, whether the transfer trigger raises,
whether the completion wait returned a file that still exists, and
whether moving the finished file raises. -/
structure FileEnv where
  finalExists : Bool
  navRaises : Bool
  waitGotFile : Bool
  moveRaises : Bool
deriving DecidableEq, Repr

/-- Environment of one year iteration: whether navigating to the year
page fails, and the environments of the files enumerated on it (empty
when no document links are found). -/
structure YearEnv where
  navFails : Bool
  files : List FileEnv
deriving DecidableEq, Repr

/-- Result of a loop of the orchestrator: the counters, the tagged trace
of performed operations, the index of the next cancellation-flag read,
and whether the loop exited through a cancellation break. -/
structure LoopOut where
  counters : Counters
  trace : List (Nat × OrchAct)
  tick : Nat
  cancelled : Bool
deriving DecidableEq, Repr

/-- Translation of the per-file loop of the source's _download_years.
Every iteration first reads the cancellation flag (one tick) and breaks
when it is set; an existing final path is counted skipped without any
transfer operation; otherwise the staging directory is cleared and the
transfer triggered; a raising trigger is counted failed; after the
completion wait the flag is read again (one more tick) and a set flag
breaks; otherwise a returned file is moved and counted downloaded (a
raising move counts failed) and a missing file counts failed. -/
def fileLoop (cancel : Nat → Bool) : List FileEnv → Nat → Counters → LoopOut
  | [], t, c => ⟨c, [], t, false⟩
  | e :: es, t, c =>
    if cancel t then ⟨c, [], t + 1, true⟩
    else if e.finalExists then fileLoop cancel es (t + 1) (addSkipped c)
    else if e.navRaises then
      let r := fileLoop cancel es (t + 1) (addFailed c)
      ⟨r.counters, (t, OrchAct.clearTemp) :: (t, OrchAct.navigate) :: r.trace,
        r.tick, r.cancelled⟩
    else if cancel (t + 1) then
      ⟨c, [(t, OrchAct.clearTemp), (t, OrchAct.navigate), (t, OrchAct.wait)],
        t + 2, true⟩
    else if e.waitGotFile && !e.moveRaises then
      let r := fileLoop cancel es (t + 2) (addDownloaded c)
      ⟨r.counters, (t, OrchAct.clearTemp) :: (t, OrchAct.navigate) ::
        (t, OrchAct.wait) :: (t + 1, OrchAct.move) :: r.trace,
        r.tick, r.cancelled⟩
    else
      let r := fileLoop cancel es (t + 2) (addFailed c)
      ⟨r.counters, (t, OrchAct.clearTemp) :: (t, OrchAct.navigate) ::
        (t, OrchAct.wait) :: r.trace, r.tick, r.cancelled⟩

/-- Translation of the per-year loop of the source's _download_years.
Every year first reads the cancellation flag and breaks when set; a
failed page navigation or an empty link enumeration counts one year
without data; otherwise the file loop runs, and a cancellation break
inside it also breaks the year loop. -/
def yearLoop (cancel : Nat → Bool) : List YearEnv → Nat → Counters → LoopOut
  | [], t, c => ⟨c, [], t, false⟩
  | y :: ys, t, c =>
    if cancel t then ⟨c, [], t + 1, true⟩
    else if y.navFails then
      let r := yearLoop cancel ys (t + 1) (addYearSkipped c)
      ⟨r.counters, (t, OrchAct.loadYearPage) :: r.trace, r.tick, r.cancelled⟩
    else if y.files.isEmpty then
      let r := yearLoop cancel ys (t + 1) (addYearSkipped c)
      ⟨r.counters, (t, OrchAct.loadYearPage) :: r.trace, r.tick, r.cancelled⟩
    else
      let f := fileLoop cancel y.files (t + 1) c
      if f.cancelled then
        ⟨f.counters, (t, OrchAct.loadYearPage) :: f.trace, f.tick, true⟩
      else
        let r := yearLoop cancel ys f.tick f.counters
        ⟨r.counters, (t, OrchAct.loadYearPage) :: (f.trace ++ r.trace),
          r.tick, r.cancelled⟩

/-- Translation of the source's _download_years: run the year loop from
zero counters, then always perform the finally block, which releases
the browser, removes the staging directory and emits the summary built
from the four final counters and the final cancellation outcome. -/
def download_years (cancel : Nat → Bool) (years : List YearEnv) :
    Counters × List (Nat × OrchAct) × Bool :=
  let r := yearLoop cancel years 0 ⟨0, 0, 0, 0⟩
  (r.counters,
   r.trace ++ [(r.tick, OrchAct.quitDriver), (r.tick, OrchAct.removeTempDir),
     (r.tick, OrchAct.summary r.counters r.cancelled)],
   r.cancelled)

lemma dropWhile_decomp (p : Char → Bool) :
    ∀ l : List Char, ∃ s, l = s ++ l.dropWhile p ∧ ∀ c ∈ s, p c = true := by
  intro l
  induction l with
  | nil => exact ⟨[], rfl, by simp⟩
  | cons a t ih =>
    by_cases ha : p a = true
    · obtain ⟨s, hs, hall⟩ := ih
      refine ⟨a :: s, ?_, ?_⟩
      · simp [List.dropWhile_cons, ha]
        exact hs
      · intro c hc
        rcases List.mem_cons.mp hc with h | h
        · exact h ▸ ha
        · exact hall c h
    · refine ⟨[], ?_, by simp⟩
      simp [List.dropWhile_cons, ha]

lemma dropWhile_head_false (p : Char → Bool) (l : List Char) :
    l.dropWhile p = [] ∨ ∃ a t, l.dropWhile p = a :: t ∧ p a = false := by
  induction l with
  | nil => exact Or.inl rfl
  | cons a t ih =>
    by_cases ha : p a = true
    · simpa [List.dropWhile_cons, ha] using ih
    · exact Or.inr ⟨a, t, by simp [List.dropWhile_cons, ha],
        Bool.eq_false_iff.mpr ha⟩

lemma dropWhile_eq_self_of_head (p : Char → Bool) (l : List Char)
    (h : l = [] ∨ ∃ a t, l = a :: t ∧ p a = false) : l.dropWhile p = l := by
  rcases h with h | ⟨a, t, rfl, ha⟩
  · simp [h]
  · simp [List.dropWhile_cons, ha]

lemma stripEnds_decomp (p : Char → Bool) (l : List Char) :
    ∃ s₁ s₂, l = s₁ ++ stripEnds p l ++ s₂ ∧
      (∀ c ∈ s₁, p c = true) ∧ (∀ c ∈ s₂, p c = true) := by
  obtain ⟨s₁, hs₁, hall₁⟩ := dropWhile_decomp p l
  obtain ⟨s₂, hs₂, hall₂⟩ := dropWhile_decomp p (l.dropWhile p).reverse
  refine ⟨s₁, s₂.reverse, ?_, hall₁, fun c hc => hall₂ c (List.mem_reverse.mp hc)⟩
  have hd : l.dropWhile p = stripEnds p l ++ s₂.reverse := by
    have := congrArg List.reverse hs₂
    simpa [stripEnds, List.reverse_append] using this
  conv_lhs => rw [hs₁, hd]
  rw [List.append_assoc]

lemma mem_stripEnds_sub (p : Char → Bool) (l : List Char) {c : Char}
    (hc : c ∈ stripEnds p l) : c ∈ l := by
  obtain ⟨s₁, s₂, hl, -, -⟩ := stripEnds_decomp p l
  rw [hl]
  simp [hc]

lemma mem_stripEnds_of_not (p : Char → Bool) (l : List Char) {c : Char}
    (hc : c ∈ l) (hp : p c = false) : c ∈ stripEnds p l := by
  obtain ⟨s₁, s₂, hl, hall₁, hall₂⟩ := stripEnds_decomp p l
  rw [hl] at hc
  rcases List.mem_append.mp hc with h | h
  · rcases List.mem_append.mp h with h | h
    · rw [hall₁ c h] at hp; cases hp
    · exact h
  · rw [hall₂ c h] at hp; cases hp

lemma stripEnds_idem (p : Char → Bool) (l : List Char) :
    stripEnds p (stripEnds p l) = stripEnds p l := by
  set d := l.dropWhile p with hd
  set e := d.reverse.dropWhile p with he
  have hstrip : stripEnds p l = e.reverse := rfl
  have hA : e.reverse.dropWhile p = e.reverse := by
    apply dropWhile_eq_self_of_head
    obtain ⟨s, hs, -⟩ := dropWhile_decomp p d.reverse
    rw [← he] at hs
    have hdd : d = e.reverse ++ s.reverse := by
      have := congrArg List.reverse hs
      simpa [List.reverse_append] using this
    cases herev : e.reverse with
    | nil => exact Or.inl rfl
    | cons a t =>
      rw [herev] at hdd
      rcases dropWhile_head_false p l with h0 | ⟨b, u, hbu, hb⟩
      · rw [← hd] at h0
        rw [h0] at hdd
        simp at hdd
      · rw [← hd] at hbu
        rw [hbu] at hdd
        injection hdd with h1 h2
        exact Or.inr ⟨a, t, rfl, h1 ▸ hb⟩
  have hB : e.dropWhile p = e := by
    apply dropWhile_eq_self_of_head
    rcases dropWhile_head_false p d.reverse with h0 | ⟨a, t, hat, ha⟩
    · exact Or.inl (he ▸ h0)
    · exact Or.inr ⟨a, t, he ▸ hat, ha⟩
  show stripEnds p e.reverse = e.reverse
  rw [stripEnds, hA, List.reverse_reverse, hB]

lemma takeWhile_eq_self_of_all (p : Char → Bool) :
    ∀ l : List Char, (∀ c ∈ l, p c = true) → l.takeWhile p = l := by
  intro l h
  induction l with
  | nil => rfl
  | cons a t ih =>
    simp [List.takeWhile_cons, h a (List.mem_cons_self a t),
      ih fun c hc => h c (List.mem_cons_of_mem a hc)]

lemma replaceInvalid_eq_self (l : List Char)
    (h : ∀ c ∈ l, invalidChars.contains c = false) : replaceInvalid l = l := by
  induction l with
  | nil => rfl
  | cons a t ih =>
    have ha := h a (List.mem_cons_self a t)
    rw [replaceInvalid, List.map_cons, if_neg (by rw [ha]; simp)]
    have := ih fun c hc => h c (List.mem_cons_of_mem a hc)
    rw [replaceInvalid] at this
    rw [this]

lemma mem_sanitize_not_invalid (x : List Char) {c : Char}
    (hc : c ∈ sanitize_filename x) : invalidChars.contains c = false := by
  have h1 : c ∈ replaceInvalid (dropAfterQ x) :=
    mem_stripEnds_sub _ _ (mem_stripEnds_sub _ _ hc)
  obtain ⟨a, -, ha⟩ := List.mem_map.mp h1
  by_cases hi : invalidChars.contains a = true
  · rw [if_pos hi] at ha
    rw [← ha]
    decide
  · rw [if_neg hi] at ha
    rw [← ha]
    exact Bool.eq_false_iff.mpr hi

/-- Claim C3 counterexample: sanitize_filename is not idempotent.  On the
input dot-space-a, the first pass strips the surrounding dots and exposes
a leading space that a second pass then removes. -/
theorem sanitize_not_idempotent_cex :
    sanitize_filename (sanitize_filename ". a".data) ≠
      sanitize_filename ". a".data := by decide

/-- Claim C3 (amended): sanitize_filename is idempotent on every input
whose sanitized form carries no surrounding whitespace; in particular
stripping trailing dots may expose whitespace, which breaks idempotence
in general. -/
theorem sanitize_idempotent_of_trimmed (x : List Char)
    (h : stripEnds isPySpace (sanitize_filename x) = sanitize_filename x) :
    sanitize_filename (sanitize_filename x) = sanitize_filename x := by
  have hq : dropAfterQ (sanitize_filename x) = sanitize_filename x := by
    rw [dropAfterQ]
    apply takeWhile_eq_self_of_all
    intro c hc
    have hni := mem_sanitize_not_invalid x hc
    by_cases hcq : c = '?'
    · subst hcq
      exact absurd hni (by decide)
    · simp [hcq]
  have hr : replaceInvalid (sanitize_filename x) = sanitize_filename x :=
    replaceInvalid_eq_self _ fun c hc => mem_sanitize_not_invalid x hc
  show stripEnds (fun c => c == '.')
      (stripEnds isPySpace (replaceInvalid (dropAfterQ (sanitize_filename x)))) =
    sanitize_filename x
  rw [hq, hr, h]
  show stripEnds (fun c => c == '.') (sanitize_filename x) = sanitize_filename x
  rw [sanitize_filename]
  exact stripEnds_idem _ _

/-- Claim C3 witness: a concrete input on which the amended idempotence
theorem applies. -/
theorem sanitize_idempotent_witness :
    sanitize_filename (sanitize_filename "BIOCHEMISTRY-PI.xlsx".data) =
      sanitize_filename "BIOCHEMISTRY-PI.xlsx".data :=
  sanitize_idempotent_of_trimmed "BIOCHEMISTRY-PI.xlsx".data (by decide)

/-- Claim C4 counterexample: a non-empty input whose only non-reserved,
non-whitespace character is a dot sanitizes to the empty string, and a
non-reserved, non-whitespace character standing after a question mark is
discarded with the query string, also leaving the empty string. -/
theorem sanitize_nonempty_claim_cex :
    (".".data ≠ [] ∧ invalidChars.contains '.' = false ∧ isPySpace '.' = false ∧
      '.' ∈ ".".data ∧ sanitize_filename ".".data = []) ∧
    ("?a".data ≠ [] ∧ invalidChars.contains 'a' = false ∧ isPySpace 'a' = false ∧
      'a' ∈ "?a".data ∧ sanitize_filename "?a".data = []) := by decide

/-- Claim C4 (amended): sanitize_filename returns a non-empty result for
every input containing, before the first question mark, at least one
character that is not reserved, not whitespace and not a dot. -/
theorem sanitize_nonempty_of_safe_char (x : List Char)
    (h : ∃ c ∈ dropAfterQ x,
      invalidChars.contains c = false ∧ isPySpace c = false ∧ c ≠ '.') :
    sanitize_filename x ≠ [] := by
  obtain ⟨c, hc, hni, hns, hnd⟩ := h
  have h1 : c ∈ replaceInvalid (dropAfterQ x) := by
    rw [replaceInvalid]
    refine List.mem_map.mpr ⟨c, hc, ?_⟩
    show (if invalidChars.contains c then '_' else c) = c
    rw [if_neg (by rw [hni]; simp)]
  have h2 : c ∈ stripEnds isPySpace (replaceInvalid (dropAfterQ x)) :=
    mem_stripEnds_of_not _ _ h1 hns
  have h3 : c ∈ sanitize_filename x :=
    mem_stripEnds_of_not _ _ h2 (by simp [hnd])
  intro hemp
  rw [hemp] at h3
  exact List.not_mem_nil c h3

/-- Claim C4 witness: a concrete input with a safe character before any
question mark sanitizes to a non-empty name. -/
theorem sanitize_nonempty_witness : sanitize_filename "a".data ≠ [] :=
  sanitize_nonempty_of_safe_char "a".data
    ⟨'a', by decide, by decide, by decide, by decide⟩

lemma mem_insertByLen (p a : List Char × String) :
    ∀ l, a ∈ insertByLen p l ↔ a = p ∨ a ∈ l := by
  intro l
  induction l with
  | nil => simp [insertByLen]
  | cons q qs ih =>
    rw [insertByLen]
    by_cases h : p.1.length < q.1.length
    · rw [if_pos h]
      simp only [List.mem_cons, ih]
      tauto
    · rw [if_neg h]
      simp only [List.mem_cons]

lemma mem_sortByLenDesc (a : List Char × String) :
    ∀ l, a ∈ sortByLenDesc l ↔ a ∈ l := by
  intro l
  induction l with
  | nil => simp [sortByLenDesc]
  | cons p ps ih =>
    rw [sortByLenDesc, mem_insertByLen]
    simp only [List.mem_cons, ih]

lemma sortedPatterns_no_PI : ∀ pc ∈ sortedPatterns, pc.2 ≠ "06_PI_Rankings" := by
  decide

lemma sortedPatterns_sorted :
    List.Pairwise (fun a b => b.1.length ≤ a.1.length) sortedPatterns := by
  decide

lemma find_first_longest (pred : List Char × String → Bool) :
    ∀ L : List (List Char × String),
      List.Pairwise (fun a b => b.1.length ≤ a.1.length) L →
      ∀ pc ∈ L, pred pc = true →
        ∃ qc, L.find? pred = some qc ∧ qc ∈ L ∧ pred qc = true ∧
          pc.1.length ≤ qc.1.length := by
  intro L
  induction L with
  | nil => intro _ pc h; cases h
  | cons x xs ih =>
    intro hp pc hmem hpred
    by_cases hx : pred x = true
    · refine ⟨x, List.find?_cons_of_pos _ hx, List.mem_cons_self x xs, hx, ?_⟩
      rcases List.mem_cons.mp hmem with rfl | hmem'
      · exact le_refl _
      · exact (List.pairwise_cons.mp hp).1 pc hmem'
    · rcases List.mem_cons.mp hmem with rfl | hmem'
      · exact absurd hpred hx
      · obtain ⟨qc, hfind, hqmem, hqpred, hqlen⟩ :=
          ih (List.pairwise_cons.mp hp).2 pc hmem' hpred
        exact ⟨qc, by rw [List.find?_cons_of_neg _ hx]; exact hfind,
          List.mem_cons_of_mem x hqmem, hqpred, hqlen⟩

/-- Claim C1: the code evaluated at the spec's end-to-end scenario input.
Sanitization leaves the name unchanged, and its normalized key is the
expected one, but the classification is the basic-science category: the
hyphen-separated PI marker matches none of the raw underscore markers,
the configured PI pattern list (which contains this very normalized key
under the PI category) is excluded from the general pass, and the
basic-science pattern then wins. -/
theorem biochemistry_pi_classification_eval :
    sanitize_filename "BIOCHEMISTRY-PI.xlsx".data = "BIOCHEMISTRY-PI.xlsx".data ∧
    removeSeps ("BIOCHEMISTRY-PI.xlsx".data.map Char.toLower) =
      "biochemistrypi.xlsx".data ∧
    categorize_file "BIOCHEMISTRY-PI.xlsx".data = "04_Basic_Science" ∧
    (FILE_CATEGORIES.any
      (fun cat => cat.1 == "06_PI_Rankings" &&
        cat.2.contains "biochemistrypi")) = true := by
  refine ⟨by decide, by decide, by decide, by decide⟩

/-- Claim C2 counterexample: two filenames that differ only in the
presence of one underscore are classified differently, because the raw
marker test is separator-sensitive. -/
theorem categorize_separator_sensitive_cex :
    removeSeps "biochemistry_pi.xlsx".data =
      removeSeps "biochemistrypi.xlsx".data ∧
    categorize_file "biochemistry_pi.xlsx".data = "06_PI_Rankings" ∧
    categorize_file "biochemistrypi.xlsx".data = "04_Basic_Science" := by
  refine ⟨by decide, by decide, by decide⟩

/-- Claim C2 (amended): classification is deterministic and insensitive
to letter case, but filenames differing only by the presence or absence
of hyphen or underscore characters may be classified differently. -/
theorem categorize_deterministic_and_case_insensitive :
    (∀ f : List Char, categorize_file f = categorize_file f) ∧
    (∀ f g : List Char, f.map Char.toLower = g.map Char.toLower →
      categorize_file f = categorize_file g) := by
  refine ⟨fun f => rfl, fun f g h => ?_⟩
  simp only [categorize_file, isPITagged, h]

/-- Claim C2 witness: two filenames differing only by case classify
identically. -/
theorem categorize_case_insensitive_witness :
    categorize_file "A.xls".data = categorize_file "a.XLS".data :=
  categorize_deterministic_and_case_insensitive.2 "A.xls".data "a.XLS".data
    (by decide)

/-- Claim C5: a filename is classified as the PI-ranking category exactly
when the early-return guard fires, that guard is precisely the four raw
markers or three normalized compound markers under a normalized
containment of the two-letter key, the pattern list scanned by the
general pass never carries the PI-ranking category, and a filename whose
normalized form is exactly the configured PI pattern "allpis" is not
classified as PI-ranking. -/
theorem pi_rankings_characterization :
    (∀ f : List Char,
      categorize_file f = "06_PI_Rankings" ↔ isPITagged f = true) ∧
    (∀ f : List Char, isPITagged f =
      (containsSub "pi".data (removeSeps (f.map Char.toLower)) &&
        (PI_RAW_TAGS.any (fun tag => containsSub tag (f.map Char.toLower)) ||
         PI_NORM_TAGS.any (fun tag =>
           containsSub tag (removeSeps (f.map Char.toLower)))))) ∧
    (∀ pc ∈ sortedPatterns, pc.2 ≠ "06_PI_Rankings") ∧
    categorize_file "allpis".data = "09_Uncategorized" := by
  refine ⟨?_, fun f => rfl, sortedPatterns_no_PI, by decide⟩
  intro f
  constructor
  · intro hcat
    by_cases h : isPITagged f = true
    · exact h
    · exfalso
      simp only [categorize_file] at hcat
      rw [if_neg h] at hcat
      cases hf : sortedPatterns.find?
          (fun pc => containsSub pc.1 (removeSeps (f.map Char.toLower))) with
      | none =>
        rw [hf] at hcat
        exact absurd (hcat : "09_Uncategorized" = "06_PI_Rankings") (by decide)
      | some pc =>
        rw [hf] at hcat
        exact sortedPatterns_no_PI pc (List.mem_of_find?_eq_some hf) hcat
  · intro h
    simp [categorize_file, h]

/-- Claim C5 witness: a filename carrying a raw underscore PI marker is
classified as the PI-ranking category. -/
theorem pi_rankings_characterization_witness :
    categorize_file "contracts_pi_2024.xls".data = "06_PI_Rankings" :=
  (pi_rankings_characterization.1 "contracts_pi_2024.xls".data).mpr (by decide)

/-- Claim C6: the general pass scans the normalized non-PI patterns in
length-descending order and returns the category of the first contained
pattern; consequently, when a filename reaches the general pass, a
contained pattern of maximal length (unique in category among maximal
matches) determines the result over any shorter contained pattern. -/
theorem general_match_longest_first :
    List.Pairwise (fun a b => b.1.length ≤ a.1.length) sortedPatterns ∧
    (∀ f : List Char, isPITagged f = false →
      categorize_file f =
        match sortedPatterns.find?
            (fun pc => containsSub pc.1 (removeSeps (f.map Char.toLower))) with
        | some pc => pc.2
        | none => "09_Uncategorized") ∧
    (∀ (f p : List Char) (c : String), (p, c) ∈ allPatterns →
      containsSub p (removeSeps (f.map Char.toLower)) = true →
      (∀ qd ∈ allPatterns,
        containsSub qd.1 (removeSeps (f.map Char.toLower)) = true →
        qd.1.length ≤ p.length) →
      (∀ qd ∈ allPatterns,
        containsSub qd.1 (removeSeps (f.map Char.toLower)) = true →
        qd.1.length = p.length → qd.2 = c) →
      isPITagged f = false → categorize_file f = c) := by
  refine ⟨sortedPatterns_sorted, ?_, ?_⟩
  · intro f h
    simp only [categorize_file]
    rw [if_neg (by simp [h])]
  · intro f p c hmem hcont hmax huniq hpi
    have hmem' : (p, c) ∈ sortedPatterns := (mem_sortByLenDesc _ _).mpr hmem
    obtain ⟨qc, hfind, hqmem, hqpred, hqlen⟩ :=
      find_first_longest
        (fun pc => containsSub pc.1 (removeSeps (f.map Char.toLower)))
        sortedPatterns sortedPatterns_sorted (p, c) hmem' hcont
    have hqmem' : qc ∈ allPatterns := (mem_sortByLenDesc _ _).mp hqmem
    have heq : qc.1.length = p.length :=
      le_antisymm (hmax qc hqmem' hqpred) hqlen
    have hc : qc.2 = c := huniq qc hqmem' hqpred heq
    simp only [categorize_file]
    rw [if_neg (by simp [hpi]), hfind]
    exact hc

set_option maxRecDepth 8192 in
/-- Claim C6 witness: a filename containing the clinical pattern of
maximal length among its matches is classified under that pattern's
category. -/
theorem general_match_longest_first_witness :
    categorize_file "dermatology.xls".data = "05_Clinical_Depts" :=
  general_match_longest_first.2.2 "dermatology.xls".data "dermatology".data
    "05_Clinical_Depts" (by decide) (by decide) (by decide) (by decide)
    (by decide)

lemma latestBy_mem : ∀ (l : List DirFile) (acc : DirFile),
    latestBy acc l = acc ∨ latestBy acc l ∈ l := by
  intro l
  induction l with
  | nil => intro acc; exact Or.inl rfl
  | cons f fs ih =>
    intro acc
    rw [latestBy]
    by_cases h : acc.mtime < f.mtime
    · rw [if_pos h]
      rcases ih f with h1 | h1
      · rw [h1]
        exact Or.inr (List.mem_cons_self f fs)
      · exact Or.inr (List.mem_cons_of_mem f h1)
    · rw [if_neg h]
      rcases ih acc with h1 | h1
      · exact Or.inl h1
      · exact Or.inr (List.mem_cons_of_mem f h1)

lemma latestBy_ge : ∀ (l : List DirFile) (acc : DirFile),
    acc.mtime ≤ (latestBy acc l).mtime ∧
      ∀ g ∈ l, g.mtime ≤ (latestBy acc l).mtime := by
  intro l
  induction l with
  | nil => intro acc; exact ⟨le_refl _, by simp⟩
  | cons f fs ih =>
    intro acc
    rw [latestBy]
    by_cases h : acc.mtime < f.mtime
    · rw [if_pos h]
      obtain ⟨h1, h2⟩ := ih f
      refine ⟨le_trans (le_of_lt h) h1, ?_⟩
      intro g hg
      rcases List.mem_cons.mp hg with rfl | hg'
      · exact h1
      · exact h2 g hg'
    · rw [if_neg h]
      obtain ⟨h1, h2⟩ := ih acc
      refine ⟨h1, ?_⟩
      intro g hg
      rcases List.mem_cons.mp hg with rfl | hg'
      · exact le_trans (Nat.le_of_not_lt h) h1
      · exact h2 g hg'

lemma wait_some_decomp : ∀ (polls : List Poll) (f : DirFile),
    wait_for_download_complete polls = some f →
    ∃ pre files post, polls = pre ++ Poll.ok files :: post ∧
      (∀ q ∈ pre, pollCancel q = false ∧ pollGood q = false) ∧
      pollGood (Poll.ok files) = true ∧
      f ∈ excelFiles files ∧
      ∀ g ∈ excelFiles files, g.mtime ≤ f.mtime := by
  intro polls
  induction polls with
  | nil => intro f h; cases h
  | cons q rest ih =>
    intro f h
    cases q with
    | cancelled =>
      simp only [wait_for_download_complete] at h
      exact Option.noConfusion h
    | err =>
      simp only [wait_for_download_complete] at h
      obtain ⟨pre, files, post, h1, h2, h3, h4, h5⟩ := ih f h
      refine ⟨Poll.err :: pre, files, post, by rw [h1]; rfl, ?_, h3, h4, h5⟩
      intro r hr
      rcases List.mem_cons.mp hr with rfl | hr'
      · exact ⟨rfl, rfl⟩
      · exact h2 r hr'
    | ok files =>
      cases he : excelFiles files with
      | nil =>
        simp only [wait_for_download_complete, he] at h
        obtain ⟨pre, files', post, h1, h2, h3, h4, h5⟩ := ih f h
        refine ⟨Poll.ok files :: pre, files', post, by rw [h1]; rfl, ?_,
          h3, h4, h5⟩
        intro r hr
        rcases List.mem_cons.mp hr with rfl | hr'
        · exact ⟨rfl, by simp [pollGood, he]⟩
        · exact h2 r hr'
      | cons e es =>
        cases ht : tempFiles files with
        | nil =>
          simp only [wait_for_download_complete, he, ht] at h
          injection h with hf
          refine ⟨[], files, rest, rfl, by simp, by simp [pollGood, he, ht],
            ?_, ?_⟩
          · rw [he, ← hf]
            rcases latestBy_mem es e with h1 | h1
            · rw [h1]
              exact List.mem_cons_self e es
            · exact List.mem_cons_of_mem e h1
          · intro g hg
            rw [he] at hg
            rw [← hf]
            rcases List.mem_cons.mp hg with rfl | hg'
            · exact (latestBy_ge es g).1
            · exact (latestBy_ge es e).2 g hg'
        | cons t ts =>
          simp only [wait_for_download_complete, he, ht] at h
          obtain ⟨pre, files', post, h1, h2, h3, h4, h5⟩ := ih f h
          refine ⟨Poll.ok files :: pre, files', post, by rw [h1]; rfl, ?_,
            h3, h4, h5⟩
          intro r hr
          rcases List.mem_cons.mp hr with rfl | hr'
          · exact ⟨rfl, by simp [pollGood, he, ht]⟩
          · exact h2 r hr'

lemma wait_some_of_good : ∀ (pre : List Poll) (a : Poll) (post : List Poll),
    (∀ q ∈ pre, pollCancel q = false ∧ pollGood q = false) →
    pollGood a = true →
    (wait_for_download_complete (pre ++ a :: post)).isSome = true := by
  intro pre
  induction pre with
  | nil =>
    intro a post _ hg
    cases a with
    | cancelled => simp [pollGood] at hg
    | err => simp [pollGood] at hg
    | ok files =>
      cases he : excelFiles files with
      | nil => simp [pollGood, he] at hg
      | cons e es =>
        cases ht : tempFiles files with
        | nil => simp [wait_for_download_complete, he, ht]
        | cons t ts => simp [pollGood, he, ht] at hg
  | cons q pre' ih =>
    intro a post hall hg
    have hq := hall q (List.mem_cons_self q pre')
    have hrest := fun r hr => hall r (List.mem_cons_of_mem q hr)
    cases q with
    | cancelled => simp [pollCancel] at hq
    | err =>
      show (wait_for_download_complete
        (Poll.err :: (pre' ++ a :: post))).isSome = true
      simp only [wait_for_download_complete]
      exact ih a post hrest hg
    | ok files =>
      have hbad : pollGood (Poll.ok files) = false := hq.2
      cases he : excelFiles files with
      | nil =>
        show (wait_for_download_complete
          (Poll.ok files :: (pre' ++ a :: post))).isSome = true
        simp only [wait_for_download_complete, he]
        exact ih a post hrest hg
      | cons e es =>
        cases ht : tempFiles files with
        | nil =>
          rw [pollGood, he, ht] at hbad
          simp at hbad
        | cons t ts =>
          show (wait_for_download_complete
            (Poll.ok files :: (pre' ++ a :: post))).isSome = true
          simp only [wait_for_download_complete, he, ht]
          exact ih a post hrest hg

/-- Claim C7: the completion wait returns a file exactly when some poll,
preceded only by polls that neither observe cancellation nor present a
good listing (listing errors among them, which therefore only retry),
presents at least one finished file and no in-progress file; the
returned file is a finished file of that listing with maximal
modification time; a listing error retries, an observed cancellation
returns no file at once, and an exhausted poll budget (the elapsed
timeout) returns no file. -/
theorem wait_for_download_complete_spec :
    (∀ polls : List Poll,
      (wait_for_download_complete polls).isSome = true ↔
        ∃ pre a post, polls = pre ++ a :: post ∧
          (∀ q ∈ pre, pollCancel q = false ∧ pollGood q = false) ∧
          pollGood a = true) ∧
    (∀ (polls : List Poll) (f : DirFile),
      wait_for_download_complete polls = some f →
      ∃ pre files post, polls = pre ++ Poll.ok files :: post ∧
        (∀ q ∈ pre, pollCancel q = false ∧ pollGood q = false) ∧
        pollGood (Poll.ok files) = true ∧
        f ∈ excelFiles files ∧ ∀ g ∈ excelFiles files, g.mtime ≤ f.mtime) ∧
    (∀ rest : List Poll,
      wait_for_download_complete (Poll.err :: rest) =
        wait_for_download_complete rest) ∧
    (∀ rest : List Poll,
      wait_for_download_complete (Poll.cancelled :: rest) = none) ∧
    wait_for_download_complete [] = none := by
  refine ⟨?_, wait_some_decomp, fun rest => rfl, fun rest => rfl, rfl⟩
  intro polls
  constructor
  · intro h
    obtain ⟨f, hf⟩ := Option.isSome_iff_exists.mp h
    obtain ⟨pre, files, post, h1, h2, h3, -, -⟩ := wait_some_decomp polls f hf
    exact ⟨pre, Poll.ok files, post, h1, h2, h3⟩
  · rintro ⟨pre, a, post, rfl, h2, h3⟩
    exact wait_some_of_good pre a post h2 h3

/-- Sample directory entry used by concrete witnesses: a finished Excel
file in the staging directory. -/
def xlsSample : DirFile := ⟨"a.xls", ".xls", true, 5⟩

/-- Claim C7 witness: after one transient listing error, a poll showing
one finished file and no in-progress file makes the wait succeed. -/
theorem wait_for_download_complete_witness :
    (wait_for_download_complete [Poll.err, Poll.ok [xlsSample]]).isSome = true :=
  (wait_for_download_complete_spec.1 [Poll.err, Poll.ok [xlsSample]]).mpr
    ⟨[Poll.err], Poll.ok [xlsSample], [], rfl, by decide, by decide⟩

lemma mem_downRange (hi lo y : Nat) : y ∈ downRange hi lo ↔ lo ≤ y ∧ y ≤ hi := by
  rw [downRange, List.mem_reverse, List.mem_range'_1]
  omega

lemma pairwise_downRange (hi lo : Nat) :
    List.Pairwise (fun a b => b < a) (downRange hi lo) := by
  rw [downRange, List.pairwise_reverse]
  exact List.pairwise_lt_range' lo (hi + 1 - lo)

/-- Claim C8: a probed year is in the result exactly when it lies in the
probed range and its probe observed a final 200 (directly by HEAD, or by
the GET retry after a 403 or 405 HEAD status); the result is sorted
descending; when every probe fails the statically configured fallback
range 2024 down to 2006 is returned; and one year's availability depends
only on that year's own two requests, so a raised per-year exception
cannot affect any other year. -/
theorem detect_available_years_spec :
    (∀ (cy : Nat) (hd gt : Nat → Except Unit Nat) (y : Nat),
      ((downRange cy 2006).filter (yearAvailable hd gt)).isEmpty = false →
      (y ∈ detect_available_years cy hd gt ↔
        2006 ≤ y ∧ y ≤ cy ∧ yearAvailable hd gt y = true)) ∧
    (∀ (hd gt : Nat → Except Unit Nat) (y : Nat),
      yearAvailable hd gt y = true ↔
        (hd y = Except.ok 200 ∨
          ((hd y = Except.ok 403 ∨ hd y = Except.ok 405) ∧
            gt y = Except.ok 200))) ∧
    (∀ (cy : Nat) (hd gt : Nat → Except Unit Nat),
      (∀ y ∈ downRange cy 2006, yearAvailable hd gt y = false) →
      detect_available_years cy hd gt = downRange 2024 2006) ∧
    (∀ (cy : Nat) (hd gt : Nat → Except Unit Nat),
      List.Pairwise (fun a b => b < a) (detect_available_years cy hd gt)) ∧
    (∀ (hd gt hd' gt' : Nat → Except Unit Nat) (y : Nat),
      hd y = hd' y → gt y = gt' y →
      yearAvailable hd gt y = yearAvailable hd' gt' y) := by
  refine ⟨?_, ?_, ?_, ?_, ?_⟩
  · intro cy hd gt y h
    simp only [detect_available_years]
    rw [if_neg (by simp [h])]
    rw [List.mem_filter, mem_downRange]
    rw [and_assoc]
  · intro hd gt y
    cases hh : hd y with
    | error e => simp [yearAvailable, hh]
    | ok s =>
      simp only [yearAvailable, hh]
      by_cases h200 : s = 200
      · subst h200
        simp
      · rw [if_neg (by simp [h200])]
        by_cases h4 : s = 403 ∨ s = 405
        · rw [if_pos (by rcases h4 with rfl | rfl <;> simp)]
          cases hg : gt y with
          | error e => simp [h200, hg]
          | ok s2 =>
            rcases h4 with rfl | rfl <;> simp
        · obtain ⟨h403, h405⟩ := not_or.mp h4
          rw [if_neg (by simp [h403, h405])]
          simp [h200, h403, h405]
  · intro cy hd gt h
    simp only [detect_available_years]
    rw [if_pos (List.isEmpty_iff.mpr (List.filter_eq_nil_iff.mpr
      (fun a ha => by simp [h a ha])))]
  · intro cy hd gt
    simp only [detect_available_years]
    by_cases h : ((downRange cy 2006).filter (yearAvailable hd gt)).isEmpty = true
    · rw [if_pos h]
      exact pairwise_downRange 2024 2006
    · rw [if_neg h]
      exact (pairwise_downRange cy 2006).filter _
  · intro hd gt hd' gt' y h1 h2
    simp only [yearAvailable, h1, h2]

/-- Sample HEAD probe used by the concrete witness: exactly the year 2007
answers 200, every other year answers 404. -/
def hdSample : Nat → Except Unit Nat :=
  fun y => if y == 2007 then Except.ok 200 else Except.ok 404

/-- Sample GET probe used by the concrete witness: every request raises. -/
def gtSample : Nat → Except Unit Nat := fun _ => Except.error ()

/-- Claim C8 witness: with one year answering 200 among 2006..2008, that
year is detected. -/
theorem detect_available_years_witness :
    2007 ∈ detect_available_years 2008 hdSample gtSample :=
  (detect_available_years_spec.1 2008 hdSample gtSample 2007 (by decide)).mpr
    ⟨by decide, by decide, by decide⟩

lemma fileLoop_nav_not_cancelled (cancel : Nat → Bool) :
    ∀ (es : List FileEnv) (t : Nat) (c : Counters) (t' : Nat),
      (t', OrchAct.navigate) ∈ (fileLoop cancel es t c).trace →
      cancel t' = false := by
  intro es
  induction es with
  | nil => intro t c t' h; simp [fileLoop] at h
  | cons e es ih =>
    intro t c t' h
    simp only [fileLoop] at h
    by_cases h1 : cancel t = true
    · rw [if_pos h1] at h
      simp at h
    · rw [if_neg h1] at h
      have h1' : cancel t = false := Bool.eq_false_iff.mpr h1
      by_cases h2 : e.finalExists = true
      · rw [if_pos h2] at h
        exact ih _ _ t' h
      · rw [if_neg h2] at h
        by_cases h3 : e.navRaises = true
        · rw [if_pos h3] at h
          simp only [List.mem_cons, Prod.mk.injEq] at h
          rcases h with ⟨-, hact⟩ | ⟨rfl, -⟩ | h
          · exact absurd hact (by decide)
          · exact h1'
          · exact ih _ _ t' h
        · rw [if_neg h3] at h
          by_cases h4 : cancel (t + 1) = true
          · rw [if_pos h4] at h
            simp only [List.mem_cons, Prod.mk.injEq, List.not_mem_nil,
              or_false] at h
            rcases h with ⟨-, hact⟩ | ⟨rfl, -⟩ | ⟨-, hact⟩
            · exact absurd hact (by decide)
            · exact h1'
            · exact absurd hact (by decide)
          · rw [if_neg h4] at h
            by_cases h5 : (e.waitGotFile && !e.moveRaises) = true
            · rw [if_pos h5] at h
              simp only [List.mem_cons, Prod.mk.injEq] at h
              rcases h with ⟨-, hact⟩ | ⟨rfl, -⟩ | ⟨-, hact⟩ | ⟨-, hact⟩ | h
              · exact absurd hact (by decide)
              · exact h1'
              · exact absurd hact (by decide)
              · exact absurd hact (by decide)
              · exact ih _ _ t' h
            · rw [if_neg h5] at h
              simp only [List.mem_cons, Prod.mk.injEq] at h
              rcases h with ⟨-, hact⟩ | ⟨rfl, -⟩ | ⟨-, hact⟩ | h
              · exact absurd hact (by decide)
              · exact h1'
              · exact absurd hact (by decide)
              · exact ih _ _ t' h

lemma yearLoop_nav_not_cancelled (cancel : Nat → Bool) :
    ∀ (ys : List YearEnv) (t : Nat) (c : Counters) (t' : Nat),
      (t', OrchAct.navigate) ∈ (yearLoop cancel ys t c).trace →
      cancel t' = false := by
  intro ys
  induction ys with
  | nil => intro t c t' h; simp [yearLoop] at h
  | cons y ys ih =>
    intro t c t' h
    simp only [yearLoop] at h
    by_cases h1 : cancel t = true
    · rw [if_pos h1] at h
      simp at h
    · rw [if_neg h1] at h
      by_cases h2 : y.navFails = true
      · rw [if_pos h2] at h
        simp only [List.mem_cons, Prod.mk.injEq] at h
        rcases h with ⟨-, hact⟩ | h
        · exact absurd hact (by decide)
        · exact ih _ _ t' h
      · rw [if_neg h2] at h
        by_cases h3 : y.files.isEmpty = true
        · rw [if_pos h3] at h
          simp only [List.mem_cons, Prod.mk.injEq] at h
          rcases h with ⟨-, hact⟩ | h
          · exact absurd hact (by decide)
          · exact ih _ _ t' h
        · rw [if_neg h3] at h
          by_cases h4 : (fileLoop cancel y.files (t + 1) c).cancelled = true
          · rw [if_pos h4] at h
            simp only [List.mem_cons, Prod.mk.injEq] at h
            rcases h with ⟨-, hact⟩ | h
            · exact absurd hact (by decide)
            · exact fileLoop_nav_not_cancelled cancel _ _ _ t' h
          · rw [if_neg h4] at h
            simp only [List.mem_cons, Prod.mk.injEq, List.mem_append] at h
            rcases h with ⟨-, hact⟩ | h | h
            · exact absurd hact (by decide)
            · exact fileLoop_nav_not_cancelled cancel _ _ _ t' h
            · exact ih _ _ t' h

/-- Claim C9: when the cancellation read at the head of a file iteration
is clear and the computed final path exists, that iteration performs no
operation at all (no staging clear, no navigation, no wait, no move),
increments exactly the skipped counter, and the loop proceeds to the
remaining files; downloaded and failed are unchanged by the step. -/
theorem skip_on_exists_step (cancel : Nat → Bool) (e : FileEnv)
    (es : List FileEnv) (t : Nat) (c : Counters)
    (hc : cancel t = false) (he : e.finalExists = true) :
    fileLoop cancel (e :: es) t c = fileLoop cancel es (t + 1) (addSkipped c) ∧
    (addSkipped c).skipped = c.skipped + 1 ∧
    (addSkipped c).downloaded = c.downloaded ∧
    (addSkipped c).failed = c.failed := by
  refine ⟨?_, rfl, rfl, rfl⟩
  rw [fileLoop, if_neg (by simp [hc]), if_pos he]

/-- Sample file iteration environment whose final path already exists. -/
def skipSample : FileEnv := ⟨true, false, false, false⟩

/-- Claim C9 witness: a one-file loop whose final path exists ends with
one skip, an empty trace and no cancellation. -/
theorem skip_on_exists_witness :
    fileLoop (fun _ => false) [skipSample] 0 ⟨0, 0, 0, 0⟩ =
      ⟨⟨0, 1, 0, 0⟩, [], 1, false⟩ := by
  rw [(skip_on_exists_step (fun _ => false) skipSample [] 0
    ⟨0, 0, 0, 0⟩ rfl rfl).1]
  rfl

/-- Claim C10: a set cancellation flag read at the head of a file or year
iteration stops the loop at once with no further operation and the
cancelled outcome; under a monotone flag (once set, set forever), every
file-transfer navigation in a whole run is tagged with a read strictly
before the flag was set; and every run ends with the finishing
operations: browser release, staging removal, and the summary carrying
the final counters and the final cancellation outcome. -/
theorem cancellation_bound_spec :
    (∀ (cancel : Nat → Bool) (e : FileEnv) (es : List FileEnv) (t : Nat)
      (c : Counters), cancel t = true →
      fileLoop cancel (e :: es) t c = ⟨c, [], t + 1, true⟩) ∧
    (∀ (cancel : Nat → Bool) (y : YearEnv) (ys : List YearEnv) (t : Nat)
      (c : Counters), cancel t = true →
      yearLoop cancel (y :: ys) t c = ⟨c, [], t + 1, true⟩) ∧
    (∀ (cancel : Nat → Bool) (years : List YearEnv) (T : Nat),
      (∀ i j : Nat, i ≤ j → cancel i = true → cancel j = true) →
      cancel T = true →
      ∀ t : Nat, (t, OrchAct.navigate) ∈ (download_years cancel years).2.1 →
        t < T) ∧
    (∀ (cancel : Nat → Bool) (years : List YearEnv),
      ∃ tr : List (Nat × OrchAct), ∃ tk : Nat,
        (download_years cancel years).2.1 =
          tr ++ [(tk, OrchAct.quitDriver), (tk, OrchAct.removeTempDir),
            (tk, OrchAct.summary (download_years cancel years).1
              (download_years cancel years).2.2)]) := by
  refine ⟨?_, ?_, ?_, ?_⟩
  · intro cancel e es t c h
    rw [fileLoop, if_pos h]
  · intro cancel y ys t c h
    rw [yearLoop, if_pos h]
  · intro cancel years T hmono hT t hmem
    simp only [download_years] at hmem
    rcases List.mem_append.mp hmem with h | h
    · have hfalse := yearLoop_nav_not_cancelled cancel years 0 ⟨0, 0, 0, 0⟩ t h
      by_cases hle : T ≤ t
      · rw [hmono T t hle hT] at hfalse
        cases hfalse
      · exact Nat.lt_of_not_le hle
    · simp only [List.mem_cons, Prod.mk.injEq, List.not_mem_nil,
        or_false] at h
      rcases h with ⟨-, hact⟩ | ⟨-, hact⟩ | ⟨-, hact⟩ <;>
        exact OrchAct.noConfusion hact
  · intro cancel years
    exact ⟨(yearLoop cancel years 0 ⟨0, 0, 0, 0⟩).trace,
      (yearLoop cancel years 0 ⟨0, 0, 0, 0⟩).tick, rfl⟩

/-- Claim C10 witness: with the flag already set, a run over one year
with one file performs nothing in the year loop and reports the
cancelled outcome. -/
theorem cancellation_bound_witness :
    yearLoop (fun _ => true) [⟨false, [⟨false, false, false, false⟩]⟩] 0
      ⟨0, 0, 0, 0⟩ = ⟨⟨0, 0, 0, 0⟩, [], 1, true⟩ :=
  cancellation_bound_spec.2.1 (fun _ => true)
    ⟨false, [⟨false, false, false, false⟩]⟩ [] 0 ⟨0, 0, 0, 0⟩ rfl
